import Mathlib

/-!
# gc-agent: verification of the frontend (static/js/app.js) and the
  spec-modelled agent controller

Shallow embedding of the GC log analyzer frontend. Pure string/DOM-building
functions from `static/js/app.js` are translated into Lean functions; the
browser runtime (fetch, DOM nodes, timers) is modelled by explicit outcome
parameters and structured view values. JavaScript truthiness on strings,
numbers and option-like values is modelled explicitly where the source
relies on it.
-/

set_option autoImplicit false

namespace GcAgent

/-! ## JavaScript value semantics helpers -/

/-- JS truthiness of an optional string: `undefined`, `null` and the empty
string are falsy; every other string is truthy. -/
def jsTruthyStr : Option String → Bool
  | none => false
  | some s => s ≠ ""

/-- JS `a || b` on an optional string (`undefined`/`null`/`""` fall through
to the default). -/
def jsOrStr (v : Option String) (d : String) : String :=
  match v with
  | none => d
  | some s => if s = "" then d else s

/-- JS `a || b` on an optional integer (`undefined`/`null`/`0` fall through
to the default, since `0` is falsy). -/
def jsOrInt (v : Option Int) (d : Int) : Int :=
  match v with
  | none => d
  | some k => if k = 0 then d else k

/-- JS `a || b` on an optional natural number. -/
def jsOrNat (v : Option Nat) (d : Nat) : Nat :=
  match v with
  | none => d
  | some k => if k = 0 then d else k

/-! ## escapeHtml (app.js lines 1141-1146)

`escapeHtml` assigns the input to a detached element via `textContent` and
reads back `innerHTML`. HTML text-node serialization escapes exactly `&`,
`<` and `>`; the leading `if (!str) return ''` maps the empty string (and
`null`/`undefined`) to the empty string. -/

/-- Serialization of one character of a DOM text node. -/
def escapeHtmlChar (c : Char) : String :=
  if c = '&' then "&amp;"
  else if c = '<' then "&lt;"
  else if c = '>' then "&gt;"
  else String.singleton c

/-- `escapeHtml` from app.js: text-node round trip through a detached div. -/
def escapeHtml (s : String) : String :=
  if s = "" then "" else String.join (s.data.map escapeHtmlChar)

theorem escapeHtmlChar_no_angle (c : Char) :
    '<' ∉ (escapeHtmlChar c).data ∧ '>' ∉ (escapeHtmlChar c).data := by
  unfold escapeHtmlChar
  split_ifs with h1 h2 h3 <;> simp_all [String.singleton] <;>
    exact ⟨fun hc => h2 hc.symm, fun hc => h3 hc.symm⟩

theorem escapeHtml_no_angle (s : String) :
    '<' ∉ (escapeHtml s).data ∧ '>' ∉ (escapeHtml s).data := by
  unfold escapeHtml
  split_ifs with h
  · simp
  · rw [String.data_join]
    constructor <;>
    · intro hmem
      rw [List.mem_flatten] at hmem
      obtain ⟨l, hl, hcl⟩ := hmem
      rw [List.mem_map] at hl
      obtain ⟨t, ht, rfl⟩ := hl
      rw [List.mem_map] at ht
      obtain ⟨c, _, rfl⟩ := ht
      first
        | exact (escapeHtmlChar_no_angle c).1 hcl
        | exact (escapeHtmlChar_no_angle c).2 hcl

/-! ## formatMarkdown (app.js lines 1148-1182)

The function first escapes its whole input (`let html = escapeHtml(text)`),
then applies a fixed sequence of regex rewrites. Each rewrite is embedded
below. The `m`-flagged `^...$` patterns act per line (lines split on a
newline); `.` in JavaScript regexes does not match a newline, while a
negated class such as a non-backtick class does. -/

/-- The backtick character (code point 96), written via `Char.ofNat`. -/
def btick : Char := Char.ofNat 96

/-- Split a character list at newlines; a string with `k` newlines yields
`k + 1` lines, exactly as splitting a JS string on a newline does. -/
def splitLinesAux : List Char → List (List Char)
  | [] => [[]]
  | c :: rest =>
    match splitLinesAux rest with
    | [] => [[]]
    | l :: ls => if c = '\n' then [] :: l :: ls else (c :: l) :: ls

/-- Apply a per-line rewrite, as an `m`-flagged `^...$` regex does, and
rejoin the lines with newlines. -/
def replaceLines (f : String → String) (s : String) : String :=
  String.mk (List.flatten (List.intersperse ['\n']
    ((splitLinesAux s.data).map (fun l => (f (String.mk l)).data))))

/-- One header line rewrite: a line matching the pattern of a marker
followed by at least one character becomes a wrapped heading. -/
def headerLine (marker tagNum : String) (line : String) : String :=
  if line.data.take marker.data.length = marker.data ∧
      marker.data.length < line.data.length then
    "<h" ++ tagNum ++ ">" ++ String.mk (line.data.drop marker.data.length) ++
      "</h" ++ tagNum ++ ">"
  else line

/-- Lazy search for the closing pair of asterisks: at least one content
character, none of which is a newline, up to the earliest closing pair.
Returns the content and the remainder after the closing pair. -/
def splitAtBoldClose : List Char → Option (List Char × List Char)
  | [] => none
  | c :: rest =>
    if c = '\n' then none
    else if rest.take 2 = ['*', '*'] then some ([c], rest.drop 2)
    else (splitAtBoldClose rest).map (fun p => (c :: p.1, p.2))

theorem splitAtBoldClose_length :
    ∀ (cs content rest2 : List Char),
      splitAtBoldClose cs = some (content, rest2) →
      rest2.length + 3 ≤ cs.length := by
  intro cs
  induction cs with
  | nil => intro content rest2 h; simp [splitAtBoldClose] at h
  | cons c rest ih =>
    intro content rest2 h
    rw [splitAtBoldClose] at h
    split_ifs at h with h1 h2
    · simp at h
      obtain ⟨hc, hr⟩ := h
      have hlen : 2 ≤ rest.length := by
        have := congrArg List.length h2
        simp [List.length_take] at this
        omega
      subst hr
      simp [List.length_drop]
      omega
    · cases hsp : splitAtBoldClose rest with
      | none => rw [hsp] at h; simp at h
      | some p =>
        rw [hsp] at h
        simp at h
        obtain ⟨hc, hr⟩ := h
        have hp := ih p.1 p.2 (by rw [hsp])
        subst hr
        simp
        omega

/-- The non-greedy global bold rewrite: a pair of asterisks, a lazy run of
at least one non-newline character, and a closing pair, replaced by a
strong element; on failure the scan resumes one character later, which on
the reachable inputs coincides with resuming after the opening pair. -/
def boldScan : List Char → List Char
  | [] => []
  | '*' :: '*' :: rest =>
    match h : splitAtBoldClose rest with
    | some (content, rest2) =>
        "<strong>".data ++ content ++ "</strong>".data ++ boldScan rest2
    | none => '*' :: '*' :: boldScan rest
  | c :: rest => c :: boldScan rest
termination_by cs => cs.length
decreasing_by
  all_goals first
    | (have hb := splitAtBoldClose_length rest content rest2 h
       simp only [List.length_cons]
       omega)
    | (simp only [List.length_cons]
       omega)

/-- Search for the closing backtick: the content is the run of characters
before the next backtick and must be nonempty. Returns the content and the
remainder after the closing backtick. -/
def splitAtCodeClose : List Char → Option (List Char × List Char)
  | [] => none
  | c :: rest =>
    if c = btick then none
    else if rest.head? = some btick then some ([c], rest.tail)
    else (splitAtCodeClose rest).map (fun p => (c :: p.1, p.2))

theorem splitAtCodeClose_length :
    ∀ (cs content rest2 : List Char),
      splitAtCodeClose cs = some (content, rest2) →
      rest2.length + 2 ≤ cs.length := by
  intro cs
  induction cs with
  | nil => intro content rest2 h; simp [splitAtCodeClose] at h
  | cons c rest ih =>
    intro content rest2 h
    rw [splitAtCodeClose] at h
    split_ifs at h with h1 h2
    · simp at h
      obtain ⟨hc, hr⟩ := h
      cases rest with
      | nil => simp at h2
      | cons a b =>
        simp at hr
        subst hr
        simp
    · cases hsp : splitAtCodeClose rest with
      | none => rw [hsp] at h; simp at h
      | some p =>
        rw [hsp] at h
        simp at h
        obtain ⟨hc, hr⟩ := h
        have hp := ih p.1 p.2 (by rw [hsp])
        subst hr
        simp
        omega

/-- The global inline-code rewrite: a backtick, a nonempty run of
non-backtick characters (which may include newlines), and a closing
backtick, replaced by a code element. -/
def codeScan : List Char → List Char
  | [] => []
  | c :: rest =>
    if c = btick then
      match h : splitAtCodeClose rest with
      | some (content, rest2) =>
          "<code>".data ++ content ++ "</code>".data ++ codeScan rest2
      | none => c :: codeScan rest
    else c :: codeScan rest
termination_by cs => cs.length
decreasing_by
  all_goals first
    | (have hb := splitAtCodeClose_length rest content rest2 h
       simp only [List.length_cons]
       omega)
    | (simp only [List.length_cons]
       omega)

/-- One dash list item line rewrite. -/
def dashListLine (line : String) : String :=
  if line.data.take 2 = ['-', ' '] ∧ 2 < line.data.length then
    "<li>" ++ String.mk (line.data.drop 2) ++ "</li>"
  else line

/-- One numbered list item line rewrite: one or more digits, a period, a
space, and at least one character; only the text after the space is kept. -/
def numListLine (line : String) : String :=
  let cs := line.data
  let ds := cs.takeWhile Char.isDigit
  let after := cs.drop ds.length
  if ds ≠ [] ∧ after.take 2 = ['.', ' '] ∧ after.drop 2 ≠ [] then
    "<li>" ++ String.mk (after.drop 2) ++ "</li>"
  else line

/-- Indices at which `pat` occurs in `cs`. -/
def subOccurrences (pat cs : List Char) : List Nat :=
  (List.range (cs.length + 1)).filter (fun i => (cs.drop i).take pat.length = pat)

/-- The per-line list wrapping rewrite: since the dot in the pattern does
not cross newlines, the greedy repeated group matches, within one line,
from the first item opening tag to the end of the last item closing tag
that starts at least four characters later; that region is wrapped. -/
def wrapUlLine (line : String) : String :=
  let cs := line.data
  match (subOccurrences "<li>".data cs).head? with
  | none => line
  | some p =>
    match ((subOccurrences "</li>".data cs).filter (fun q => p + 4 ≤ q)).getLast? with
    | none => line
    | some q =>
      String.mk (cs.take p) ++ "<ul>" ++
        String.mk ((cs.drop p).take (q + 5 - p)) ++ "</ul>" ++
        String.mk (cs.drop (q + 5))

/-- Global non-overlapping left-to-right literal replacement, as a global
regex over a literal pattern performs. -/
def replaceAllCore (pat rep : List Char) : List Char → List Char
  | [] => []
  | c :: rest =>
    if pat ≠ [] ∧ (c :: rest).take pat.length = pat then
      rep ++ replaceAllCore pat rep ((c :: rest).drop pat.length)
    else c :: replaceAllCore pat rep rest
termination_by cs => cs.length
decreasing_by
  · rename_i hcond
    have := congrArg List.length hcond.2
    simp [List.length_take] at this
    have hp : pat.length ≥ 1 := by
      cases pat with
      | nil => exact absurd rfl hcond.1
      | cons a b => simp
    simp [List.length_drop]
    omega
  · simp

/-- Literal global replacement on strings. -/
def replaceAll (s pat rep : String) : String :=
  String.mk (replaceAllCore pat.data rep.data s.data)

/-- The empty-paragraph cleanup: an opening paragraph tag, a possibly
empty whitespace run, and a closing paragraph tag are removed. -/
def stripEmptyParas : List Char → List Char
  | [] => []
  | c :: rest =>
    if (c :: rest).take 3 = "<p>".data then
      let afterWs := ((c :: rest).drop 3).dropWhile Char.isWhitespace
      if afterWs.take 4 = "</p>".data then stripEmptyParas (afterWs.drop 4)
      else c :: stripEmptyParas rest
    else c :: stripEmptyParas rest
termination_by cs => cs.length
decreasing_by
  all_goals first
    | (have h1 : ((rest.drop 2).dropWhile Char.isWhitespace).length ≤ rest.length := by
         have h2 : ((rest.drop 2).dropWhile Char.isWhitespace).length ≤ (rest.drop 2).length :=
           (List.dropWhile_sublist _).length_le
         simp [List.length_drop] at h2
         omega
       simp only [List.length_cons, List.drop_succ_cons, List.length_drop]
       simp
       omega)
    | (simp only [List.length_cons]
       omega)

/-- The markdown-to-html rewrite sequence of `formatMarkdown`, applied to
the already escaped text, in source order: headers, bold, inline code,
list items, list wrapping, paragraph breaks, paragraph wrapping, and the
final cleanup replacements. -/
def applyMarkdownRewrites (h0 : String) : String :=
  let h1 := replaceLines (headerLine "### " "3") h0
  let h2 := replaceLines (headerLine "## " "2") h1
  let h3 := replaceLines (headerLine "# " "1") h2
  let h4 := String.mk (boldScan h3.data)
  let h5 := String.mk (codeScan h4.data)
  let h6 := replaceLines dashListLine h5
  let h7 := replaceLines numListLine h6
  let h8 := replaceLines wrapUlLine h7
  let h9 := replaceAll h8 "\n\n" "</p><p>"
  let h10 := "<p>" ++ h9 ++ "</p>"
  let h11 := String.mk (stripEmptyParas h10.data)
  let h12 := replaceAll h11 "<p><h1>" "<h1>"
  let h13 := replaceAll h12 "<p><h2>" "<h2>"
  let h14 := replaceAll h13 "<p><h3>" "<h3>"
  let h15 := replaceAll h14 "</h1></p>" "</h1>"
  let h16 := replaceAll h15 "</h2></p>" "</h2>"
  let h17 := replaceAll h16 "</h3></p>" "</h3>"
  let h18 := replaceAll h17 "<p><ul>" "<ul>"
  replaceAll h18 "</ul></p>" "</ul>"

/-- `formatMarkdown` from app.js: guard on a falsy input, escape the whole
input, then apply the markdown rewrites. -/
def formatMarkdown (text : String) : String :=
  if text = "" then "" else applyMarkdownRewrites (escapeHtml text)

/-! ## Data model

`GcEvent` as consumed by the frontend (field names from the analyze
response, spec.md §3/§6). Numeric fields are rationals; optional fields
model absent JSON keys. -/

structure GcEvent where
  gc_id : Option Int
  timestamp : Option String
  uptime_seconds : Option ℚ
  pause_type : Option String
  gc_type : Option String
  cause : Option String
  pause_ms : Option ℚ
  heap_before_mb : Option ℚ
  heap_after_mb : Option ℚ
  heap_total_mb : Option ℚ
  heap_reclaimed_mb : Option ℚ
  is_full_gc : Bool
deriving DecidableEq, Repr

/-- The pause value used by the frontend filters: a JS comparison
`e.pause_ms > 0` is false when the field is absent. -/
def pauseOf (e : GcEvent) : ℚ := e.pause_ms.getD 0

/-! ## Formatting utilities (app.js lines 1110-1139) -/

/-- Left-pad a digit string with zeros to the requested width. -/
def padLeftZeros (s : String) (d : Nat) : String :=
  String.mk (List.replicate (d - s.length) '0') ++ s

/-- `Number.prototype.toFixed` on a rational: round half away from zero at
the requested number of decimal digits and print with a fixed fraction
width (no fraction part when the width is zero). -/
def ratToFixed (q : ℚ) (d : Nat) : String :=
  let scaled : ℚ := q * ((10 : ℚ) ^ d)
  let r : Int := if 0 ≤ scaled then ⌊scaled + 1/2⌋ else -⌊-scaled + 1/2⌋
  let sign := if r < 0 then "-" else ""
  let a := r.natAbs
  if d = 0 then sign ++ toString (a / 10 ^ d)
  else sign ++ toString (a / 10 ^ d) ++ "." ++ padLeftZeros (toString (a % 10 ^ d)) d

/-- `formatMs` from app.js: absent values print as a dash; at least one
second prints in seconds with two digits, otherwise in ms with one. -/
def formatMs (ms : Option ℚ) : String :=
  match ms with
  | none => "-"
  | some m => if 1000 ≤ m then ratToFixed (m / 1000) 2 ++ "s" else ratToFixed m 1 ++ "ms"

/-- `formatMB` from app.js: absent or zero prints as a dash; at least
1024 prints in GB with one digit, otherwise whole MB. -/
def formatMB (mb : Option ℚ) : String :=
  match mb with
  | none => "-"
  | some m =>
    if m = 0 then "-"
    else if 1024 ≤ m then ratToFixed (m / 1024) 1 ++ " GB" else ratToFixed m 0 ++ " MB"

/-- The argument of `formatTime(event.timestamp || event.uptime_seconds)`:
a truthy timestamp string, else a truthy uptime number, else a falsy
value. -/
inductive TimeArg where
  | str (s : String)
  | num (q : ℚ)
  | falsy
deriving DecidableEq, Repr

/-- Evaluate `event.timestamp || event.uptime_seconds` under JS
truthiness (empty string and zero are falsy). -/
def timeArgOf (e : GcEvent) : TimeArg :=
  match e.timestamp with
  | some s => if s ≠ "" then .str s else
      match e.uptime_seconds with
      | some u => if u ≠ 0 then .num u else .falsy
      | none => .falsy
  | none =>
      match e.uptime_seconds with
      | some u => if u ≠ 0 then .num u else .falsy
      | none => .falsy

/-- `formatTime` from app.js. The locale-dependent rendering of a date
string is a parameter of the embedding (`toLocaleTimeString`). -/
def formatTime (localeTime : String → String) (v : TimeArg) : String :=
  match v with
  | .falsy => "-"
  | .num q => ratToFixed q 3 ++ "s"
  | .str s => localeTime s

/-- `getPauseBadgeClass` from app.js: a falsy or small pause is `fast`
(zero is falsy and also at most ten, so one comparison suffices). -/
def getPauseBadgeClass (ms : Option ℚ) : String :=
  match ms with
  | none => "fast"
  | some m =>
    if m ≤ 10 then "fast"
    else if m ≤ 100 then "normal"
    else if m ≤ 500 then "slow"
    else "critical"

/-! ## Pause distribution chart (app.js lines 621-662) -/

/-- The fixed bucket display order from `displayDistributionChart`. -/
def bucketOrder : List String :=
  ["0-10ms", "10-50ms", "50-100ms", "100-500ms", "500ms-1s", ">1s"]

/-- The `bucketColors` table from `displayDistributionChart`. -/
def bucketColors (b : String) : String :=
  if b = "100-500ms" then "medium"
  else if b = "500ms-1s" ∨ b = ">1s" then "high"
  else ""

/-- JS object key lookup on the distribution, modelled as an association
list. -/
def lookupDist (dist : List (String × Nat)) (k : String) : Option Nat :=
  (dist.find? (fun p => p.1 = k)).map Prod.snd

/-- One rendered distribution row. -/
structure DistBar where
  label : String
  count : Nat
  widthPct : ℚ
  colorClass : String
deriving DecidableEq, Repr

/-- The rendered distribution panel. -/
inductive DistView where
  | noData (msg : String)
  | bars (items : List DistBar)
deriving DecidableEq, Repr

/-- `displayDistributionChart` from app.js: a falsy distribution renders
the empty state; otherwise one bar per bucket of `bucketOrder`, in that
order, with `dist[bucket] || 0` as the count and the width relative to
the maximum value of the mapping. -/
def displayDistributionChart (dist0 : Option (List (String × Nat))) : DistView :=
  match dist0 with
  | none => .noData "No distribution data"
  | some dist =>
    let maxCount : Option Nat := (dist.map Prod.snd).max?
    .bars (bucketOrder.map (fun b =>
      let count := jsOrNat (lookupDist dist b) 0
      let pct : ℚ :=
        match maxCount with
        | some m => if 0 < m then (count : ℚ) / (m : ℚ) * 100 else 0
        | none => 0
      { label := b, count := count, widthPct := pct, colorClass := bucketColors b }))

/-- Modelled from the spec: the aggregator producing `pause_distribution`
lives in the backend, which is not under src/. Spec.md §3 fixes six
buckets that partition all events with a positive pause exactly once
each; boundary points follow the bucket labels with inclusive upper
bounds. -/
def pauseBucket (p : ℚ) : Option String :=
  if p ≤ 0 then none
  else if p ≤ 10 then some "0-10ms"
  else if p ≤ 50 then some "10-50ms"
  else if p ≤ 100 then some "50-100ms"
  else if p ≤ 500 then some "100-500ms"
  else if p ≤ 1000 then some "500ms-1s"
  else some ">1s"

/-- Modelled from the spec: the `pause_distribution` mapping of a run,
one count per bucket of the fixed order. -/
def pauseDistributionOf (events : List GcEvent) : List (String × Nat) :=
  bucketOrder.map (fun b =>
    (b, (events.filter (fun e => pauseBucket (pauseOf e) = some b)).length))

/-! ## Events table (app.js lines 695-760) -/

/-- One rendered table row of the events table. -/
structure EventRow where
  rowClass : String
  dataFull : Bool
  dataPause : Option ℚ
  idCell : String
  timeCell : String
  typeCell : String
  causeCell : String
  pauseBadgeClass : String
  pauseCell : String
  heapBeforeCell : String
  heapAfterCell : String
  reclaimedCell : String
deriving DecidableEq, Repr

/-- Template interpolation of a possibly missing string: JS renders
`undefined` for an absent value. -/
def templateStr (v : Option String) : String := v.getD "undefined"

/-- `event.pause_type || event.gc_type` under JS truthiness. -/
def jsOrOpt (a b : Option String) : Option String :=
  if jsTruthyStr a then a else b

/-- One row of the events table body, mirroring the row template of
`displayEventsTable`. -/
def renderRow (localeTime : String → String) (e : GcEvent) : EventRow :=
  { rowClass := if e.is_full_gc then "full-gc"
      else if 200 < pauseOf e then "long-pause" else ""
    dataFull := e.is_full_gc
    dataPause := e.pause_ms
    idCell := match e.gc_id with
      | none => "-"
      | some i => toString i
    timeCell := formatTime localeTime (timeArgOf e)
    typeCell := templateStr (jsOrOpt e.pause_type e.gc_type)
    causeCell := jsOrStr e.cause "-"
    pauseBadgeClass := getPauseBadgeClass e.pause_ms
    pauseCell := formatMs e.pause_ms
    heapBeforeCell := formatMB e.heap_before_mb
    heapAfterCell := formatMB e.heap_after_mb
    reclaimedCell := formatMB e.heap_reclaimed_mb }

/-- The rendered events table. -/
inductive EventsTableView where
  | noEvents (msg : String)
  | table (rows : List EventRow) (overflowNotice : Option String)
deriving DecidableEq, Repr

/-- `displayEventsTable` from app.js: an empty list renders the empty
state; otherwise at most the first 500 events are rendered in order
(`events.slice(0, 500)`), and a notice is appended when the list is
longer than 500. -/
def displayEventsTable (localeTime : String → String)
    (events0 : Option (List GcEvent)) : EventsTableView :=
  let events := events0.getD []
  if events.length = 0 then .noEvents "No GC events found"
  else
    .table ((events.take 500).map (renderRow localeTime))
      (if 500 < events.length then
        some ("Showing first 500 of " ++ toString events.length ++ " events")
      else none)

/-! ## Agentic result data and rendering (app.js lines 952-1048)

The investigation result consumed by `displayAgenticResult`. The typing
of `AgentStep.action` is modelled from the spec (§3: an optional
structure of a tool name and arguments), since the backend producing the
steps is not under src/. -/

/-- Modelled from the spec: the structured action of a step,
`{tool_name, arguments}` (spec.md §3). -/
structure ToolAction where
  tool_name : String
  arguments : List (String × String)
deriving DecidableEq, Repr

/-- One step of the returned trace (spec.md §3 field set, as consumed by
the renderer). -/
structure AgentStep where
  step : Int
  thought : Option String
  action : Option ToolAction
  observation : Option String
  is_final : Bool
deriving DecidableEq, Repr

/-- One tuning recommendation of the result. -/
structure Recommendation where
  flag : String
  reason : String
  priority : String
deriving DecidableEq, Repr

/-- One issue surfaced during the investigation. -/
structure FoundIssue where
  type : String
  severity : String
deriving DecidableEq, Repr

/-- The agentic analyze response body. A failure response carries only an
`error` string in place of the result (spec.md §6). -/
structure AgenticResponse where
  error : Option String
  steps : List AgentStep
  total_steps : Int
  final_answer : Option String
  recommendations : List Recommendation
  issues_found : List FoundIssue
  model : Option String
deriving DecidableEq, Repr

/-- Assigning a plain object to `textContent` coerces it through the JS
string conversion, which yields this fixed text for a plain object. -/
def jsStringOfAction (_ : ToolAction) : String := "[object Object]"

/-- One rendered step of the investigation trace. -/
structure StepView where
  number : Int
  expanded : Bool
  finalClass : Bool
  thoughtHtml : String
  actionHtml : Option String
  observationHtml : Option String
deriving DecidableEq, Repr

/-- The step template of `displayAgenticResult`: the thought falls back
to a fixed text, the action block is rendered exactly when the action is
present, the observation body exactly when the observation is truthy. -/
def renderStep (step : AgentStep) : StepView :=
  { number := step.step
    expanded := step.is_final
    finalClass := step.is_final
    thoughtHtml := escapeHtml (jsOrStr step.thought "Thinking...")
    actionHtml := step.action.map (fun a => escapeHtml (jsStringOfAction a))
    observationHtml :=
      if jsTruthyStr step.observation then some (escapeHtml (step.observation.getD ""))
      else none }

/-- One rendered recommendation. -/
structure RecView where
  priorityIcon : String
  flagHtml : String
  reasonHtml : String
deriving DecidableEq, Repr

/-- The recommendation template of `displayAgenticResult`. -/
def renderRec (r : Recommendation) : RecView :=
  { priorityIcon := if r.priority = "high" then "🔴" else "🟡"
    flagHtml := escapeHtml r.flag
    reasonHtml := escapeHtml r.reason }

/-- One rendered discovered issue. -/
structure FoundIssueView where
  severityColor : String
  typeHtml : String
deriving DecidableEq, Repr

/-- The discovered-issue template of `displayAgenticResult`. -/
def renderFoundIssue (i : FoundIssue) : FoundIssueView :=
  { severityColor := if i.severity = "critical" then "var(--severity-critical)"
      else "var(--severity-warning)"
    typeHtml := escapeHtml (replaceAll i.type "_" " ") }

/-- The rendered agentic result panel: trace block (present iff there are
steps), final answer block (markdown-formatted, present iff truthy),
recommendations and discovered issues (present iff nonempty). -/
structure AgenticView where
  trace : Option (Int × List StepView)
  finalAnswerHtml : Option String
  recs : Option (List RecView)
  issues : Option (List FoundIssueView)
deriving DecidableEq, Repr

/-- `displayAgenticResult` from app.js. -/
def displayAgenticResult (r : AgenticResponse) : AgenticView :=
  { trace := if 0 < r.steps.length then some (r.total_steps, r.steps.map renderStep)
      else none
    finalAnswerHtml :=
      if jsTruthyStr r.final_answer then some (formatMarkdown (r.final_answer.getD ""))
      else none
    recs := if 0 < r.recommendations.length then some (r.recommendations.map renderRec)
      else none
    issues := if 0 < r.issues_found.length then some (r.issues_found.map renderFoundIssue)
      else none }

/-! ## Fetch outcomes, AI panels, auto-start and chat
(app.js lines 789-950, 1050-1093)

One async operation of the frontend is embedded as a function of the
outcome of its network call: either the promise chain rejected (network
failure, abort on timeout, or a body parse failure — all reach the
`catch` with an `error.message`) or a response arrived with an HTTP
status flag and a parsed body. -/

/-- Outcome of a `fetch` plus body parse. -/
inductive FetchOutcome (α : Type) where
  | fail (msg : String)
  | resp (ok : Bool) (body : α)
deriving DecidableEq, Repr

/-- The quick-analysis response body. -/
structure AiResponse where
  error : Option String
  analysis : Option String
  model : Option String
deriving DecidableEq, Repr

/-- What the AI panel container ends up showing. -/
inductive AiPanel where
  | errorBox (html : String)
  | quickResult (html : String)
  | agenticResult (v : AgenticView)
deriving DecidableEq, Repr

/-- `runAIAnalysis` from app.js: a truthy `error` field of the body
renders the error box, otherwise the markdown-formatted `analysis`; a
rejected request renders the catch error box. The HTTP status is not
consulted. -/
def runAIAnalysis (outcome : FetchOutcome AiResponse) : AiPanel :=
  match outcome with
  | .fail msg => .errorBox ("❌ Failed to get AI analysis: " ++ escapeHtml msg)
  | .resp _ r =>
    if jsTruthyStr r.error then .errorBox ("❌ " ++ escapeHtml (r.error.getD ""))
    else .quickResult (formatMarkdown (r.analysis.getD ""))

/-- `runAgenticAnalysis` from app.js: same shape over the agentic result. -/
def runAgenticAnalysis (outcome : FetchOutcome AgenticResponse) : AiPanel :=
  match outcome with
  | .fail msg => .errorBox ("❌ Failed to run agentic analysis: " ++ escapeHtml msg)
  | .resp _ r =>
    if jsTruthyStr r.error then .errorBox ("❌ " ++ escapeHtml (r.error.getD ""))
    else .agenticResult (displayAgenticResult r)

/-- The health check response body. -/
structure HealthBody where
  available : Bool
deriving DecidableEq, Repr

/-- A network request issued by the frontend. -/
inductive Request where
  | get (url : String) (timeoutMs : Option Nat)
  | post (url : String)
deriving DecidableEq, Repr

/-- What the auto-start flow leaves on screen. -/
inductive AutoStartView where
  | skippedHttp
  | skippedOllama
  | caught (msg : String)
  | errorBox (html : String)
  | agenticResult (v : AgenticView)
deriving DecidableEq, Repr

/-- One run of the auto-start flow: the requests it issued, in order, and
the final view. -/
structure AutoStartRun where
  requests : List Request
  view : AutoStartView
deriving DecidableEq, Repr

/-- The health request of `autoStartAgenticAnalysis`, issued with
`AbortSignal.timeout(3000)`. -/
def aiHealthRequest : Request := .get "/ai-health" (some 3000)

/-- `autoStartAgenticAnalysis` from app.js (lines 832-907): the health
check is issued first with a three second abort timeout; a rejected
health request (network failure or timeout) is caught and the flow ends
silently; a non-2xx status or `available: false` skips; only a healthy
`available: true` response triggers the agentic analyze request, whose
result is then handled as in `runAgenticAnalysis`. -/
def autoStartAgenticAnalysis (health : FetchOutcome HealthBody)
    (agentic : FetchOutcome AgenticResponse) : AutoStartRun :=
  match health with
  | .fail msg => ⟨[aiHealthRequest], .caught msg⟩
  | .resp ok body =>
    if !ok then ⟨[aiHealthRequest], .skippedHttp⟩
    else if !body.available then ⟨[aiHealthRequest], .skippedOllama⟩
    else
      match agentic with
      | .fail msg => ⟨[aiHealthRequest, .post "/agentic-analyze"], .caught msg⟩
      | .resp _ r =>
        if jsTruthyStr r.error then
          ⟨[aiHealthRequest, .post "/agentic-analyze"],
            .errorBox ("❌ " ++ escapeHtml (r.error.getD ""))⟩
        else
          ⟨[aiHealthRequest, .post "/agentic-analyze"],
            .agenticResult (displayAgenticResult r)⟩

/-- The chat response body. -/
structure ChatResponse where
  error : Option String
  answer : Option String
deriving DecidableEq, Repr

/-- The chat request body `{question, context: analysisData}`. -/
structure ChatRequest (α : Type) where
  url : String
  question : String
  context : α
deriving DecidableEq, Repr

/-- The assistant bubble the chat leaves on screen. -/
inductive ChatReplyView where
  | failed (html : String)
  | errorMsg (html : String)
  | answer (html : String)
deriving DecidableEq, Repr

/-- One run of `sendChatMessage`: the requests issued, the escaped user
bubble, and the reply bubble. -/
structure ChatRun (α : Type) where
  requests : List (ChatRequest α)
  userMsgHtml : Option String
  reply : Option ChatReplyView
deriving DecidableEq, Repr

/-- `String.prototype.trim`: drop leading and trailing whitespace. -/
def jsTrim (s : String) : String :=
  String.mk (((s.data.dropWhile Char.isWhitespace).reverse.dropWhile
    Char.isWhitespace).reverse)

/-- `sendChatMessage` from app.js (lines 1050-1093): a falsy trimmed
question returns before any request; otherwise exactly one request with
body `{question, context}` is sent, and the reply bubble shows the
markdown-formatted `answer`, the escaped `error`, or the escaped catch
message. -/
def sendChatMessage {α : Type} (inputValue : String) (ctx : α)
    (outcome : FetchOutcome ChatResponse) : ChatRun α :=
  let question := jsTrim inputValue
  if question = "" then ⟨[], none, none⟩
  else
    ⟨[⟨"/ai-chat", question, ctx⟩], some (escapeHtml question),
      some (match outcome with
        | .fail msg => .failed ("Failed to get response: " ++ escapeHtml msg)
        | .resp _ r =>
          if jsTruthyStr r.error then .errorMsg (escapeHtml (r.error.getD ""))
          else .answer (formatMarkdown (r.answer.getD "")))⟩

/-! ## Pause chart zoom state (app.js lines 7-14, 180-204, 342-403) -/

/-- The mutable zoom state of the pause chart (drag bookkeeping fields
omitted; they do not survive an interaction). -/
structure PauseChartZoom where
  startIndex : Int
  endIndex : Option Int
deriving DecidableEq, Repr

/-- The zoom button actions. -/
inductive ZoomAction where
  | zin
  | zout
  | reset
deriving DecidableEq, Repr

/-- `zoomPauseChart` from app.js: `n` is the number of events with a
positive pause. `pauseChartZoom.endIndex || allEvents.length` makes a
missing or zero end index fall back to the full length. -/
def zoomPauseChart (n : Int) (st : PauseChartZoom) (act : ZoomAction) :
    PauseChartZoom :=
  let currentStart := st.startIndex
  let currentEnd := jsOrInt st.endIndex n
  let visibleCount := currentEnd - currentStart
  match act with
  | .zin =>
    let amount := ⌊(visibleCount : ℚ) * (1/4 : ℚ)⌋
    ⟨currentStart + amount, some (currentEnd - amount)⟩
  | .zout =>
    let amount := ⌊(visibleCount : ℚ) * (1/2 : ℚ)⌋
    ⟨max 0 (currentStart - amount), some (min n (currentEnd + amount))⟩
  | .reset => ⟨0, some n⟩

/-- JS `Array.prototype.slice` index resolution. -/
def jsSliceIdx (n i : Int) : Int := if i < 0 then max (n + i) 0 else min i n

/-- Length of `arr.slice(s, e)` for an array of length `n`. -/
def jsSliceLen (n s e : Int) : Int := max 0 (jsSliceIdx n e - jsSliceIdx n s)

/-- The zoom-state effect of `displayPauseChart` (lines 180-204): with no
pause events the chart shows the empty state and leaves the state alone;
a strictly missing end index is initialized to the full length; if the
visible slice `allEvents.slice(max(0,start), min(n,end))` is empty the
state is reset to the full range (the re-render then shows everything). -/
def displayPauseChartState (n : Int) (st : PauseChartZoom) : PauseChartZoom :=
  if n = 0 then st
  else
    let e0 := match st.endIndex with
      | none => n
      | some e => e
    let s1 := max 0 st.startIndex
    let e1 := min n e0
    if jsSliceLen n s1 e1 = 0 then ⟨0, some n⟩ else ⟨st.startIndex, some e0⟩

/-- The `mouseup` drag-selection handler of `setupPauseChartInteraction`
(lines 342-367): `s`, `e` are the zoom state captured when the chart was
rendered, `n` the number of events with a positive pause; `dragStartX`
was bounded to the plot area at `mousedown`, the release abscissa is
clamped to it; a selection narrower than ten pixels is ignored. -/
def dragSelectZoom (n s e : Int) (padLeft chartWidth dragStartX mouseX : ℚ) :
    PauseChartZoom :=
  let len : Int := jsSliceLen n s e
  let endX := max padLeft (min mouseX (padLeft + chartWidth))
  let startX := dragStartX
  let selWidth := |endX - startX|
  if selWidth < 10 then ⟨s, some e⟩
  else
    let leftX := min startX endX - padLeft
    let rightX := max startX endX - padLeft
    let leftIdx := ⌊leftX / chartWidth * (len : ℚ)⌋
    let rightIdx := ⌈rightX / chartWidth * (len : ℚ)⌉
    ⟨s + max 0 leftIdx, some (s + min len rightIdx)⟩

/-! ## Agent controller (spec-modelled)

Modelled from the spec: the bounded ReAct controller of §4.4 lives in the
backend, which is not under src/. The LLM is an arbitrary function of the
trace so far; each cycle yields a thought and either a final answer or a
tool action; a tool action is dispatched and its observation recorded; on
reaching the step cap without a final answer the controller synthesizes a
conclusion and marks the last step final. -/

/-- Modelled from the spec: one LLM reply of a cycle — a thought and
either a tool action or a final answer (§4.4). -/
inductive LlmDecision where
  | act (a : ToolAction)
  | finish (answer : String)
deriving DecidableEq, Repr

/-- Modelled from the spec: the parsed model output of one cycle. -/
structure LlmReply where
  thought : String
  decision : LlmDecision
deriving DecidableEq, Repr

/-- Modelled from the spec: the controller loop. `fuel` is the number of
cycles still allowed; `i` the next step number; `trace` the steps so
far. -/
def runAgentLoop (llm : List AgentStep → LlmReply) (dispatch : ToolAction → String) :
    Nat → Nat → List AgentStep → List AgentStep
  | 0, _, trace => trace
  | fuel + 1, i, trace =>
    let r := llm trace
    match r.decision with
    | .finish _ => trace ++ [⟨(i : Int), some r.thought, none, none, true⟩]
    | .act a =>
      if fuel = 0 then
        trace ++ [⟨(i : Int), some r.thought, some a, some (dispatch a), true⟩]
      else
        runAgentLoop llm dispatch fuel (i + 1)
          (trace ++ [⟨(i : Int), some r.thought, some a, some (dispatch a), false⟩])

/-- Modelled from the spec: one investigation run with step cap `nMax`. -/
def runAgent (nMax : Nat) (llm : List AgentStep → LlmReply)
    (dispatch : ToolAction → String) : List AgentStep :=
  runAgentLoop llm dispatch nMax 1 []

/-- Whether an AI panel is the structured error box. -/
def isErrorBox : AiPanel → Bool
  | .errorBox _ => true
  | _ => false

/-! ## Theorems -/

theorem runAgentLoop_length_le (llm : List AgentStep → LlmReply)
    (dispatch : ToolAction → String) :
    ∀ (fuel i : Nat) (trace : List AgentStep),
      (runAgentLoop llm dispatch fuel i trace).length ≤ trace.length + fuel ∧
      (1 ≤ fuel → ∃ l, (runAgentLoop llm dispatch fuel i trace).getLast? = some l ∧
        l.is_final = true) := by
  intro fuel
  induction fuel with
  | zero =>
    intro i trace
    refine ⟨by simp [runAgentLoop], fun h => absurd h (by simp)⟩
  | succ fuel ih =>
    intro i trace
    rcases hdec : (llm trace).decision with a | ans
    · by_cases hf : fuel = 0
      · subst hf
        refine ⟨?_, fun _ => ?_⟩
        · simp [runAgentLoop, hdec]
        · refine ⟨⟨(i : Int), some (llm trace).thought, some a,
            some (dispatch a), true⟩, ?_, rfl⟩
          simp [runAgentLoop, hdec, List.getLast?_concat]
      · have hstep := ih (i + 1)
          (trace ++ [⟨(i : Int), some (llm trace).thought, some a,
            some (dispatch a), false⟩])
        refine ⟨?_, fun _ => ?_⟩
        · have h1 := hstep.1
          simp only [runAgentLoop, hdec, hf, if_false]
          simp at h1 ⊢
          omega
        · have h2 := hstep.2 (Nat.one_le_iff_ne_zero.mpr hf)
          simp only [runAgentLoop, hdec, hf, if_false]
          exact h2
    · refine ⟨?_, fun _ => ?_⟩
      · simp [runAgentLoop, hdec]
      · refine ⟨⟨(i : Int), some (llm trace).thought, none, none, true⟩, ?_, rfl⟩
        simp [runAgentLoop, hdec, List.getLast?_concat]

/-- C1: for any input and any model behavior — including one that never
produces a final answer — the controller yields a trace of length at most
the step cap whose last step has `is_final = true`; reaching the cap
records a synthesized final step rather than an unterminated trace. -/
theorem agent_trace_bounded_and_final (nMax : Nat)
    (llm : List AgentStep → LlmReply) (dispatch : ToolAction → String)
    (h : 1 ≤ nMax) :
    (runAgent nMax llm dispatch).length ≤ nMax ∧
    ∃ l, (runAgent nMax llm dispatch).getLast? = some l ∧ l.is_final = true := by
  have hloop := runAgentLoop_length_le llm dispatch nMax 1 []
  exact ⟨by simpa using hloop.1, hloop.2 h⟩

theorem agent_trace_bounded_and_final_witness :
    1 ≤ 3 ∧
    ((runAgent 3 (fun _ => ⟨"investigate", .act ⟨"get_summary", []⟩⟩)
        (fun _ => "ok")).length ≤ 3 ∧
      ∃ l, (runAgent 3 (fun _ => ⟨"investigate", .act ⟨"get_summary", []⟩⟩)
        (fun _ => "ok")).getLast? = some l ∧ l.is_final = true) :=
  ⟨by decide, agent_trace_bounded_and_final 3 _ _ (by decide)⟩

/-- C2: after results are displayed, the agentic endpoint is auto-invoked
iff the health check resolved with a 2xx status and `available: true`; a
failed, timed out, non-2xx or unavailable health check never triggers
it. -/
theorem agentic_auto_invoke_iff_healthy (health : FetchOutcome HealthBody)
    (agentic : FetchOutcome AgenticResponse) :
    Request.post "/agentic-analyze" ∈ (autoStartAgenticAnalysis health agentic).requests ↔
      health = .resp true ⟨true⟩ := by
  cases health with
  | fail m => simp [autoStartAgenticAnalysis, aiHealthRequest]
  | resp ok body =>
    rcases body with ⟨av⟩
    cases ok <;> cases av <;> cases agentic <;>
      simp [autoStartAgenticAnalysis, aiHealthRequest] <;>
      split_ifs <;> simp

theorem agentic_auto_invoke_iff_healthy_witness :
    Request.post "/agentic-analyze" ∈
      (autoStartAgenticAnalysis (.resp true ⟨true⟩) (.fail "net down")).requests :=
  (agentic_auto_invoke_iff_healthy _ _).mpr rfl

/-- C4: the health check request carries a 3000 ms abort timeout, and a
rejected (failed or timed out) or non-2xx health response makes the flow
treat the backend as unavailable and return without invoking the agentic
endpoint. -/
theorem health_check_timeout_and_failure_path (health : FetchOutcome HealthBody)
    (agentic : FetchOutcome AgenticResponse) :
    (autoStartAgenticAnalysis health agentic).requests.head? =
      some (.get "/ai-health" (some 3000)) ∧
    (∀ msg, health = .fail msg →
      autoStartAgenticAnalysis health agentic =
        ⟨[.get "/ai-health" (some 3000)], .caught msg⟩) ∧
    (∀ ok body, health = .resp ok body → ok = false →
      autoStartAgenticAnalysis health agentic =
        ⟨[.get "/ai-health" (some 3000)], .skippedHttp⟩) := by
  refine ⟨?_, ?_, ?_⟩
  · cases health with
    | fail m => simp [autoStartAgenticAnalysis, aiHealthRequest]
    | resp ok body =>
      cases ok <;> cases agentic <;>
        simp [autoStartAgenticAnalysis, aiHealthRequest] <;>
        split_ifs <;> simp
  · rintro msg rfl
    simp [autoStartAgenticAnalysis, aiHealthRequest]
  · rintro ok body rfl rfl
    simp [autoStartAgenticAnalysis, aiHealthRequest]

theorem health_check_timeout_and_failure_path_witness :
    autoStartAgenticAnalysis (.fail "signal timed out") (.fail "x") =
      ⟨[.get "/ai-health" (some 3000)], .caught "signal timed out"⟩ :=
  (health_check_timeout_and_failure_path _ _).2.1 _ rfl

/-- C5 counterexample: a quick-analysis response body that does contain an
`error` field (the empty string) renders the result branch, not a
structured error message — `if (result.error)` tests JS truthiness, and
the empty string is falsy. -/
theorem quick_analysis_empty_error_field_not_shown :
    (AiResponse.mk (some "") (some "All good") none).error.isSome = true ∧
    runAIAnalysis (.resp true (AiResponse.mk (some "") (some "All good") none)) =
      .quickResult (formatMarkdown "All good") ∧
    isErrorBox (runAIAnalysis
      (.resp true (AiResponse.mk (some "") (some "All good") none))) = false :=
  ⟨rfl, rfl, rfl⟩

/-- C5 (amended): for every quick-analysis or agentic-analysis response,
a truthy (non-empty) `error` field renders the structured error box and
no result content; a falsy `error` renders the result; a rejected request
renders the catch error box — so a user-visible failure is always a
structured error message. -/
theorem analysis_error_field_rendering (ai : AiResponse) (ag : AgenticResponse)
    (ok1 ok2 : Bool) :
    (jsTruthyStr ai.error = true →
      runAIAnalysis (.resp ok1 ai) = .errorBox ("❌ " ++ escapeHtml (ai.error.getD ""))) ∧
    (jsTruthyStr ai.error = false →
      runAIAnalysis (.resp ok1 ai) = .quickResult (formatMarkdown (ai.analysis.getD ""))) ∧
    (jsTruthyStr ag.error = true →
      runAgenticAnalysis (.resp ok2 ag) = .errorBox ("❌ " ++ escapeHtml (ag.error.getD ""))) ∧
    (jsTruthyStr ag.error = false →
      runAgenticAnalysis (.resp ok2 ag) = .agenticResult (displayAgenticResult ag)) ∧
    (∀ msg, runAIAnalysis (.fail msg) =
      .errorBox ("❌ Failed to get AI analysis: " ++ escapeHtml msg)) ∧
    (∀ msg, runAgenticAnalysis (.fail msg) =
      .errorBox ("❌ Failed to run agentic analysis: " ++ escapeHtml msg)) := by
  refine ⟨fun h => ?_, fun h => ?_, fun h => ?_, fun h => ?_, fun msg => rfl, fun msg => rfl⟩ <;>
    simp [runAIAnalysis, runAgenticAnalysis, h]

theorem analysis_error_field_rendering_witness :
    jsTruthyStr (AiResponse.mk (some "model not found") none none).error = true ∧
    runAIAnalysis (.resp true (AiResponse.mk (some "model not found") none none)) =
      .errorBox ("❌ " ++ escapeHtml "model not found") :=
  ⟨by decide,
    (analysis_error_field_rendering (AiResponse.mk (some "model not found") none none)
      (AgenticResponse.mk none [] 0 none [] [] none) true true).1 (by decide)⟩

/-- C6: a non-empty trimmed question sends exactly one request with body
`{question, context}` to the chat endpoint and displays the returned
answer on success or the returned error on failure; an empty or
whitespace-only question sends no request. -/
theorem chat_request_and_display (α : Type) (inputValue : String) (ctx : α)
    (outcome : FetchOutcome ChatResponse) :
    (jsTrim inputValue ≠ "" →
      (sendChatMessage inputValue ctx outcome).requests =
        [⟨"/ai-chat", jsTrim inputValue, ctx⟩] ∧
      (∀ ok r, outcome = .resp ok r → jsTruthyStr r.error = false →
        (sendChatMessage inputValue ctx outcome).reply =
          some (.answer (formatMarkdown (r.answer.getD "")))) ∧
      (∀ ok r, outcome = .resp ok r → jsTruthyStr r.error = true →
        (sendChatMessage inputValue ctx outcome).reply =
          some (.errorMsg (escapeHtml (r.error.getD ""))))) ∧
    (jsTrim inputValue = "" →
      (sendChatMessage inputValue ctx outcome).requests = [] ∧
      (sendChatMessage inputValue ctx outcome).reply = none) := by
  constructor
  · intro hne
    refine ⟨?_, ?_, ?_⟩
    · simp [sendChatMessage, hne]
    · rintro ok r rfl hfalse
      simp [sendChatMessage, hne, hfalse]
    · rintro ok r rfl htrue
      simp [sendChatMessage, hne, htrue]
  · intro heq
    simp [sendChatMessage, heq]

theorem chat_request_and_display_witness :
    jsTrim "  why so many pauses  " ≠ "" ∧
    (sendChatMessage "  why so many pauses  " ("analysis" : String)
        (.resp true ⟨none, some "Heap pressure"⟩)).requests =
      [⟨"/ai-chat", jsTrim "  why so many pauses  ", "analysis"⟩] ∧
    (sendChatMessage "  why so many pauses  " ("analysis" : String)
        (.resp true ⟨none, some "Heap pressure"⟩)).reply =
      some (.answer (formatMarkdown "Heap pressure")) := by
  have h := chat_request_and_display String "  why so many pauses  " "analysis"
    (.resp true ⟨none, some "Heap pressure"⟩)
  have hne : jsTrim "  why so many pauses  " ≠ "" := by decide
  exact ⟨hne, (h.1 hne).1, (h.1 hne).2.1 true ⟨none, some "Heap pressure"⟩ rfl (by decide)⟩

/-- C7: a step action is either absent or the structured
`{tool_name, arguments}` value, and the trace renderer emits an action
block exactly for the steps on which it is present (and a step view for
every step of a nonempty trace). -/
theorem step_action_rendered_iff_present (step : AgentStep) (r : AgenticResponse) :
    (step.action = none ∨ ∃ t args, step.action = some ⟨t, args⟩) ∧
    (renderStep step).actionHtml = step.action.map (fun a => escapeHtml (jsStringOfAction a)) ∧
    ((renderStep step).actionHtml.isSome ↔ step.action.isSome) ∧
    (0 < r.steps.length →
      (displayAgenticResult r).trace = some (r.total_steps, r.steps.map renderStep)) := by
  refine ⟨?_, rfl, ?_, fun h => ?_⟩
  · cases h : step.action with
    | none => exact Or.inl rfl
    | some a => exact Or.inr ⟨a.tool_name, a.arguments, rfl⟩
  · simp [renderStep]
  · simp [displayAgenticResult, h]

theorem step_action_rendered_iff_present_witness :
    0 < (AgenticResponse.mk none
      [⟨1, some "look at pauses", some ⟨"get_long_pauses", [("threshold_ms", "500")]⟩,
        some "2 events", false⟩] 1 none [] [] none).steps.length ∧
    (displayAgenticResult (AgenticResponse.mk none
      [⟨1, some "look at pauses", some ⟨"get_long_pauses", [("threshold_ms", "500")]⟩,
        some "2 events", false⟩] 1 none [] [] none)).trace =
      some (1, [renderStep ⟨1, some "look at pauses",
        some ⟨"get_long_pauses", [("threshold_ms", "500")]⟩, some "2 events", false⟩]) :=
  ⟨by decide,
    (step_action_rendered_iff_present
      ⟨1, some "look at pauses", some ⟨"get_long_pauses", [("threshold_ms", "500")]⟩,
        some "2 events", false⟩
      (AgenticResponse.mk none
        [⟨1, some "look at pauses", some ⟨"get_long_pauses", [("threshold_ms", "500")]⟩,
          some "2 events", false⟩] 1 none [] [] none)).2.2.2 (by decide)⟩

theorem applyMarkdownRewrites_empty : applyMarkdownRewrites "" = "" := by
  have e1 : replaceLines (headerLine "### " "3") "" = "" := by decide
  have e2 : replaceLines (headerLine "## " "2") "" = "" := by decide
  have e3 : replaceLines (headerLine "# " "1") "" = "" := by decide
  have e4 : boldScan ("" : String).data = [] := by
    show boldScan [] = []
    rw [boldScan]
  have e5 : codeScan ([] : List Char) = [] := by rw [codeScan]
  have e6 : replaceLines dashListLine (String.mk []) = "" := by decide
  have e7 : replaceLines numListLine "" = "" := by decide
  have e8 : replaceLines wrapUlLine "" = "" := by decide
  have e9 : ∀ pat rep : String, replaceAll "" pat rep = "" := fun pat rep => by
    show String.mk (replaceAllCore _ _ []) = ""
    rw [replaceAllCore]
  have e10 : String.mk (stripEmptyParas ("<p>" ++ "" ++ "</p>" : String).data) = "" := by
    show String.mk (stripEmptyParas ['<', 'p', '>', '<', '/', 'p', '>']) = ""
    simp [stripEmptyParas]
  simp only [applyMarkdownRewrites]
  rw [e1, e2, e3, e4, e5, e6, e7, e8, e9, e10]
  simp only [e9]

/-- C8: every escaped string contains no angle bracket — no markup can
survive escaping — and `formatMarkdown` escapes its entire input before
applying the markdown-to-html rewrites, so served or model-authored text
cannot inject raw HTML. -/
theorem server_text_escaped_before_markup (s : String) :
    ('<' ∉ (escapeHtml s).data ∧ '>' ∉ (escapeHtml s).data) ∧
    formatMarkdown s = applyMarkdownRewrites (escapeHtml s) := by
  refine ⟨escapeHtml_no_angle s, ?_⟩
  by_cases h : s = ""
  · subst h
    have h1 : escapeHtml "" = "" := rfl
    rw [h1, applyMarkdownRewrites_empty]
    rfl
  · simp [formatMarkdown, h]

theorem list_sum_map_add {β : Type} (l : List β) (f g : β → Nat) :
    (l.map (fun b => f b + g b)).sum = (l.map f).sum + (l.map g).sum := by
  induction l with
  | nil => simp
  | cons x xs ih => simp [ih]; omega

theorem pauseBucket_indicator (p : ℚ) :
    (bucketOrder.map (fun b => if pauseBucket p = some b then 1 else 0)).sum =
      if 0 < p then 1 else 0 := by
  by_cases h0 : p ≤ 0
  · rw [if_neg (not_lt.mpr h0)]
    simp [pauseBucket, h0, bucketOrder]
  · rw [if_pos (lt_of_not_le h0)]
    by_cases h10 : p ≤ 10
    · simp [pauseBucket, h0, h10, bucketOrder]
    · by_cases h50 : p ≤ 50
      · simp [pauseBucket, h0, h10, h50, bucketOrder]
      · by_cases h100 : p ≤ 100
        · simp [pauseBucket, h0, h10, h50, h100, bucketOrder]
        · by_cases h500 : p ≤ 500
          · simp [pauseBucket, h0, h10, h50, h100, h500, bucketOrder]
          · by_cases h1000 : p ≤ 1000
            · simp [pauseBucket, h0, h10, h50, h100, h500, h1000, bucketOrder]
            · simp [pauseBucket, h0, h10, h50, h100, h500, h1000, bucketOrder]

theorem pauseDistributionOf_counts (l : List GcEvent) :
    (pauseDistributionOf l).map Prod.snd =
      bucketOrder.map
        (fun b => (l.filter (fun x => pauseBucket (pauseOf x) = some b)).length) := by
  simp [pauseDistributionOf, List.map_map, Function.comp]

theorem pauseDistribution_partition (events : List GcEvent) :
    ((pauseDistributionOf events).map Prod.snd).sum =
      (events.filter (fun e => 0 < pauseOf e)).length := by
  induction events with
  | nil => simp [pauseDistributionOf_counts, bucketOrder]
  | cons e es ih =>
    rw [pauseDistributionOf_counts] at ih ⊢
    have hstep : bucketOrder.map
        (fun b => ((e :: es).filter (fun x => pauseBucket (pauseOf x) = some b)).length) =
        bucketOrder.map (fun b =>
          (if pauseBucket (pauseOf e) = some b then 1 else 0) +
            (es.filter (fun x => pauseBucket (pauseOf x) = some b)).length) := by
      refine congrArg (fun f => List.map f bucketOrder) (funext fun b => ?_)
      rw [List.filter_cons]
      by_cases hb : pauseBucket (pauseOf e) = some b
      · simp [hb, Nat.add_comm]
      · simp [hb]
    rw [hstep, list_sum_map_add, pauseBucket_indicator, ih, List.filter_cons]
    by_cases hp : 0 < pauseOf e
    · simp [hp, Nat.add_comm]
    · simp [hp]

/-- C3: the distribution panel renders exactly the six fixed buckets in
the fixed order, with a bucket absent from the mapping displayed as count
zero; and the buckets of the (spec-modelled) aggregation partition all
events with a positive pause exactly once each:
`sum(pause_distribution.values()) = count(events with pause_ms > 0)`. -/
theorem pause_distribution_fixed_buckets (dist : List (String × Nat))
    (events : List GcEvent) :
    (∃ items, displayDistributionChart (some dist) = .bars items ∧
      items.map DistBar.label = bucketOrder ∧
      ∀ item ∈ items, lookupDist dist item.label = none → item.count = 0) ∧
    (pauseDistributionOf events).map Prod.fst = bucketOrder ∧
    ((pauseDistributionOf events).map Prod.snd).sum =
      (events.filter (fun e => 0 < pauseOf e)).length := by
  refine ⟨⟨_, rfl, ?_, ?_⟩, ?_, pauseDistribution_partition events⟩
  · simp [displayDistributionChart, List.map_map, Function.comp_def]
  · intro item hmem habs
    simp only [displayDistributionChart, List.mem_map] at hmem
    obtain ⟨b, _, rfl⟩ := hmem
    simp only at habs
    simp [habs, jsOrNat]
  · simp [pauseDistributionOf, List.map_map, Function.comp_def]

theorem floor_mul_frac_nonneg (v : Int) (c : ℚ) (hv : 0 ≤ v) (hc : 0 ≤ c) :
    0 ≤ ⌊(v : ℚ) * c⌋ :=
  Int.floor_nonneg.mpr (mul_nonneg (by exact_mod_cast hv) hc)

theorem zoomIn_amount_bounds (cs ce : Int) (h0 : 0 ≤ cs) (hce : cs ≤ ce) :
    0 ≤ ⌊((ce - cs : Int) : ℚ) * (1/4 : ℚ)⌋ ∧
    4 * ⌊((ce - cs : Int) : ℚ) * (1/4 : ℚ)⌋ ≤ ce - cs := by
  refine ⟨floor_mul_frac_nonneg _ _ (by omega) (by norm_num), ?_⟩
  have hf := Int.floor_le (((ce - cs : Int) : ℚ) * (1/4 : ℚ))
  have h4 : (4 * (⌊((ce - cs : Int) : ℚ) * (1/4 : ℚ)⌋ : ℚ)) ≤ ((ce - cs : Int) : ℚ) := by
    linarith
  exact_mod_cast h4

theorem dragSelect_bounds (n s e : Int) (padLeft w dragStartX mouseX : ℚ)
    (hw : 0 < w) (hd1 : padLeft ≤ dragStartX) (hd2 : dragStartX ≤ padLeft + w)
    (hs0 : 0 ≤ s) (hse : s ≤ e) (hen : e ≤ n) :
    ∃ e2, (dragSelectZoom n s e padLeft w dragStartX mouseX).endIndex = some e2 ∧
      0 ≤ (dragSelectZoom n s e padLeft w dragStartX mouseX).startIndex ∧
      (dragSelectZoom n s e padLeft w dragStartX mouseX).startIndex ≤ e2 ∧
      e2 ≤ n := by
  have hlen : jsSliceLen n s e = e - s := by
    unfold jsSliceLen jsSliceIdx
    split_ifs <;> omega
  simp only [dragSelectZoom, hlen]
  split_ifs with hsel
  · exact ⟨e, rfl, hs0, hse, hen⟩
  · have hpw : padLeft ≤ padLeft + w := by linarith
    have hex1 : padLeft ≤ max padLeft (min mouseX (padLeft + w)) := le_max_left _ _
    have hex2 : max padLeft (min mouseX (padLeft + w)) ≤ padLeft + w :=
      max_le hpw (min_le_right _ _)
    have hl0 : (0 : ℚ) ≤ min dragStartX (max padLeft (min mouseX (padLeft + w))) - padLeft := by
      have := le_min hd1 hex1
      linarith
    have hlW : min dragStartX (max padLeft (min mouseX (padLeft + w))) - padLeft ≤ w := by
      have := min_le_left dragStartX (max padLeft (min mouseX (padLeft + w)))
      linarith
    have hr0 : (0 : ℚ) ≤ max dragStartX (max padLeft (min mouseX (padLeft + w))) - padLeft := by
      have := le_max_left dragStartX (max padLeft (min mouseX (padLeft + w)))
      linarith
    have hlr : min dragStartX (max padLeft (min mouseX (padLeft + w))) - padLeft ≤
        max dragStartX (max padLeft (min mouseX (padLeft + w))) - padLeft := by
      have := @min_le_max ℚ _ dragStartX (max padLeft (min mouseX (padLeft + w)))
      linarith
    have hlennn : (0 : ℚ) ≤ ((e - s : Int) : ℚ) := by
      exact_mod_cast (by omega : (0 : ℤ) ≤ e - s)
    have hfl_len : ⌊(min dragStartX (max padLeft (min mouseX (padLeft + w))) - padLeft) / w *
        ((e - s : Int) : ℚ)⌋ ≤ e - s := by
      have h1 : (min dragStartX (max padLeft (min mouseX (padLeft + w))) - padLeft) / w ≤ 1 :=
        (div_le_one hw).mpr hlW
      have h2 : (min dragStartX (max padLeft (min mouseX (padLeft + w))) - padLeft) / w *
          ((e - s : Int) : ℚ) ≤ ((e - s : Int) : ℚ) := by
        calc (min dragStartX (max padLeft (min mouseX (padLeft + w))) - padLeft) / w *
            ((e - s : Int) : ℚ)
            ≤ 1 * ((e - s : Int) : ℚ) := mul_le_mul_of_nonneg_right h1 hlennn
          _ = ((e - s : Int) : ℚ) := one_mul _
      calc ⌊(min dragStartX (max padLeft (min mouseX (padLeft + w))) - padLeft) / w *
          ((e - s : Int) : ℚ)⌋
          ≤ ⌊((e - s : Int) : ℚ)⌋ := Int.floor_le_floor h2
        _ = e - s := Int.floor_intCast _
    have hfl_ceil : ⌊(min dragStartX (max padLeft (min mouseX (padLeft + w))) - padLeft) / w *
        ((e - s : Int) : ℚ)⌋ ≤
        ⌈(max dragStartX (max padLeft (min mouseX (padLeft + w))) - padLeft) / w *
          ((e - s : Int) : ℚ)⌉ := by
      have h1 : (min dragStartX (max padLeft (min mouseX (padLeft + w))) - padLeft) / w ≤
          (max dragStartX (max padLeft (min mouseX (padLeft + w))) - padLeft) / w :=
        (div_le_div_iff_of_pos_right hw).mpr hlr
      have h2 := mul_le_mul_of_nonneg_right h1 hlennn
      exact le_trans (Int.floor_le_floor h2) (Int.floor_le_ceil _)
    have hceil0 : 0 ≤ ⌈(max dragStartX (max padLeft (min mouseX (padLeft + w))) - padLeft) / w *
        ((e - s : Int) : ℚ)⌉ :=
      Int.ceil_nonneg (mul_nonneg (div_nonneg hr0 hw.le) hlennn)
    refine ⟨s + min (e - s) ⌈(max dragStartX (max padLeft (min mouseX (padLeft + w))) -
        padLeft) / w * ((e - s : Int) : ℚ)⌉, rfl, ?_, ?_, ?_⟩
    · show 0 ≤ s + max 0 ⌊(min dragStartX (max padLeft (min mouseX (padLeft + w))) -
        padLeft) / w * ((e - s : Int) : ℚ)⌋
      omega
    · show s + max 0 ⌊(min dragStartX (max padLeft (min mouseX (padLeft + w))) -
        padLeft) / w * ((e - s : Int) : ℚ)⌋ ≤ s + min (e - s)
          ⌈(max dragStartX (max padLeft (min mouseX (padLeft + w))) -
            padLeft) / w * ((e - s : Int) : ℚ)⌉
      omega
    · omega

/-- C9: with the end index initialized and the range invariant holding,
every zoom button action and every drag selection preserves
`0 ≤ startIndex ≤ endIndex ≤ n` (`n` the number of events with a positive
pause); reset restores the full range; and a rendering that finds an
empty visible slice resets the state to the full range. -/
theorem pause_chart_zoom_invariant (n e : Int) (st : PauseChartZoom)
    (act : ZoomAction) (padLeft chartWidth dragStartX mouseX : ℚ)
    (hn : 0 ≤ n) (hend : st.endIndex = some e)
    (hs0 : 0 ≤ st.startIndex) (hse : st.startIndex ≤ e) (hen : e ≤ n) :
    (∃ e2, (zoomPauseChart n st act).endIndex = some e2 ∧
      0 ≤ (zoomPauseChart n st act).startIndex ∧
      (zoomPauseChart n st act).startIndex ≤ e2 ∧ e2 ≤ n) ∧
    zoomPauseChart n st .reset = ⟨0, some n⟩ ∧
    (0 < chartWidth → padLeft ≤ dragStartX → dragStartX ≤ padLeft + chartWidth →
      ∃ e2, (dragSelectZoom n st.startIndex e padLeft chartWidth dragStartX
          mouseX).endIndex = some e2 ∧
        0 ≤ (dragSelectZoom n st.startIndex e padLeft chartWidth dragStartX
          mouseX).startIndex ∧
        (dragSelectZoom n st.startIndex e padLeft chartWidth dragStartX
          mouseX).startIndex ≤ e2 ∧ e2 ≤ n) ∧
    (0 < n → jsSliceLen n (max 0 st.startIndex) (min n e) = 0 →
      displayPauseChartState n st = ⟨0, some n⟩) := by
  have hce : st.startIndex ≤ jsOrInt (some e) n ∧ jsOrInt (some e) n ≤ n := by
    simp only [jsOrInt]
    split_ifs with h
    · omega
    · omega
  refine ⟨?_, by simp [zoomPauseChart], ?_, ?_⟩
  · cases act with
    | reset => exact ⟨n, by simp [zoomPauseChart], by simp [zoomPauseChart, hn]⟩
    | zin =>
      have hb := zoomIn_amount_bounds st.startIndex (jsOrInt (some e) n) hs0 hce.1
      simp only [zoomPauseChart, hend]
      exact ⟨_, rfl, by omega, by omega, by omega⟩
    | zout =>
      have ha0 : 0 ≤ ⌊((jsOrInt (some e) n - st.startIndex : Int) : ℚ) * (1/2 : ℚ)⌋ :=
        floor_mul_frac_nonneg _ _ (by omega) (by norm_num)
      simp only [zoomPauseChart, hend]
      exact ⟨_, rfl, by omega, by omega, by omega⟩
  · intro hw hd1 hd2
    exact dragSelect_bounds n st.startIndex e padLeft chartWidth dragStartX mouseX
      hw hd1 hd2 hs0 hse hen
  · intro hpos hempty
    unfold displayPauseChartState
    rw [if_neg (by omega), hend]
    simp only [hempty, if_pos rfl]
    simp

theorem pause_chart_zoom_invariant_witness :
    zoomPauseChart 10 ⟨2, some 8⟩ .reset = ⟨0, some 10⟩ ∧
    ∃ e2, (dragSelectZoom 10 2 8 70 600 100 400).endIndex = some e2 ∧
      0 ≤ (dragSelectZoom 10 2 8 70 600 100 400).startIndex ∧
      (dragSelectZoom 10 2 8 70 600 100 400).startIndex ≤ e2 ∧ e2 ≤ 10 := by
  have h := pause_chart_zoom_invariant 10 8 ⟨2, some 8⟩ .reset 70 600 100 400
    (by decide) rfl (by decide) (by decide) (by decide)
  exact ⟨h.2.1, h.2.2.1 (by norm_num) (by norm_num) (by norm_num)⟩

/-- C10: the events table renders at most the first 500 events in the
order given; with more than 500 events exactly the first 500 rows are
produced and a notice reporting the first 500 of the total is appended;
an empty list produces the empty-state message. -/
theorem events_table_first_500 (localeTime : String → String)
    (events : List GcEvent) :
    displayEventsTable localeTime none = .noEvents "No GC events found" ∧
    (events = [] →
      displayEventsTable localeTime (some events) = .noEvents "No GC events found") ∧
    (events ≠ [] → 500 < events.length →
      displayEventsTable localeTime (some events) =
        .table ((events.take 500).map (renderRow localeTime))
          (some ("Showing first 500 of " ++ toString events.length ++ " events")) ∧
      ((events.take 500).map (renderRow localeTime)).length = 500 ∧
      events.take 500 ++ events.drop 500 = events) ∧
    (events ≠ [] → events.length ≤ 500 →
      displayEventsTable localeTime (some events) =
        .table (events.map (renderRow localeTime)) none) := by
  refine ⟨rfl, ?_, ?_, ?_⟩
  · rintro rfl
    rfl
  · intro hne hlong
    refine ⟨?_, ?_, List.take_append_drop 500 events⟩
    · simp only [displayEventsTable, Option.getD_some]
      rw [if_neg (by simp [hne]), if_pos hlong]
    · simp [List.length_take]
      omega
  · intro hne hshort
    simp only [displayEventsTable, Option.getD_some]
    rw [if_neg (by simp [hne]), if_neg (by omega)]
    rw [List.take_of_length_le hshort]

theorem events_table_first_500_witness :
    (List.replicate 501 (⟨none, none, none, none, none, none, none, none,
        none, none, none, false⟩ : GcEvent)) ≠ [] ∧
    500 < (List.replicate 501 (⟨none, none, none, none, none, none, none,
        none, none, none, none, false⟩ : GcEvent)).length ∧
    displayEventsTable (fun s => s)
        (some (List.replicate 501 (⟨none, none, none, none, none, none, none,
          none, none, none, none, false⟩ : GcEvent))) =
      .table (((List.replicate 501 (⟨none, none, none, none, none, none, none,
          none, none, none, none, false⟩ : GcEvent)).take 500).map
            (renderRow (fun s => s)))
        (some ("Showing first 500 of " ++
          toString (List.replicate 501 (⟨none, none, none, none, none, none,
            none, none, none, none, none, false⟩ : GcEvent)).length ++
          " events")) := by
  have hne : (List.replicate 501 (⟨none, none, none, none, none, none, none,
      none, none, none, none, false⟩ : GcEvent)) ≠ [] := by
    simp only [ne_eq, List.replicate_eq_nil]
    omega
  have hlong : 500 < (List.replicate 501 (⟨none, none, none, none, none, none,
      none, none, none, none, none, false⟩ : GcEvent)).length := by
    simp only [List.length_replicate]
    omega
  exact ⟨hne, hlong,
    ((events_table_first_500 (fun s => s) _).2.2.1 hne hlong).1⟩

theorem pause_distribution_fixed_buckets_witness :
    (∃ items, displayDistributionChart (some [("0-10ms", 3)]) = .bars items ∧
      items.map DistBar.label = bucketOrder ∧
      ∀ item ∈ items, lookupDist [("0-10ms", 3)] item.label = none → item.count = 0) ∧
    ((pauseDistributionOf [⟨none, none, none, none, none, none, some 12, none,
        none, none, none, false⟩]).map Prod.snd).sum = 1 := by
  have h := pause_distribution_fixed_buckets [("0-10ms", 3)]
    [⟨none, none, none, none, none, none, some 12, none, none, none, none, false⟩]
  exact ⟨h.1, h.2.2.trans (by decide)⟩

theorem server_text_escaped_before_markup_witness :
    ('<' ∉ (escapeHtml "<b>hi</b>").data ∧ '>' ∉ (escapeHtml "<b>hi</b>").data) ∧
    formatMarkdown "<b>hi</b>" = applyMarkdownRewrites (escapeHtml "<b>hi</b>") :=
  server_text_escaped_before_markup "<b>hi</b>"

end GcAgent
